import Mathlib

/-!
Shallow embedding of the exam-question extractor in `src/main.py` (class
`ExtractorUFRGS`).  Strings are modelled as `List Char`; each Python regex used
by the source is transcribed into explicit, executable matching functions that
follow the backtracking semantics of Python `re` module (leftmost match,
greedy/lazy quantifiers, zero-width lookahead).  Machine-independent parts
(PDF reading, file I/O, printing, JSON serialization) are outside the core and
are not modelled; the image index that the first pass builds is taken as an
explicit association list, and the process-wide mutable `materia_atual` is
threaded as an explicit `Option String` parameter, exactly as it is read by the
text-processing pass.
-/

set_option maxRecDepth 4096

/-- Python whitespace class for the chars relevant here (re `\s` over the
ASCII range: space, tab, newline, carriage return, vertical tab, form feed). -/
def isWs (c : Char) : Bool :=
  c = ' ' || c = '\t' || c = '\n' || c = '\r' || c = '\x0b' || c = '\x0c'

/-- Python `str.strip()`: remove leading and trailing whitespace. -/
def pyStrip (cs : List Char) : List Char :=
  ((cs.dropWhile isWs).reverse.dropWhile isWs).reverse

/-- Lowercasing as Python `re.IGNORECASE` applies it to the Latin-1 letters
used by the source keyword tables: ASCII `A`-`Z` and the accented capitals
`À`-`Þ` (except `×`) map down by 32 code points. -/
def lowerPy (c : Char) : Char :=
  let n := c.toNat
  if 65 ≤ n ∧ n ≤ 90 then Char.ofNat (n + 32)
  else if 192 ≤ n ∧ n ≤ 222 ∧ n ≠ 215 then Char.ofNat (n + 32)
  else c

/-- Python word-character class `\w` restricted to the Latin-1 range:
ASCII letters, digits, underscore, and the accented Latin-1 letters
(codes 192-255 except the multiplication and division signs), plus the
Latin-1 letterlike signs ª µ º. -/
def isWordChar (c : Char) : Bool :=
  c.isAlpha || c.isDigit || c = '_' ||
  (192 ≤ c.toNat && c.toNat ≤ 255 && c.toNat ≠ 215 && c.toNat ≠ 247) ||
  c.toNat = 170 || c.toNat = 181 || c.toNat = 186

/-- Value of one decimal digit character. -/
def digitVal (c : Char) : Nat := c.toNat - 48

/-- Python `int(...)` on a string of decimal digits. -/
def digitsVal (ds : List Char) : Nat :=
  ds.foldl (fun a c => 10 * a + digitVal c) 0

/-- Substring test: does `pat` occur contiguously inside the second list?
This is the semantics of `re.search` for a literal pattern. -/
def contemSub (pat : List Char) : List Char → Bool
  | [] => pat.isEmpty
  | c :: t => pat.isPrefixOf (c :: t) || contemSub pat t

/-- One image entry of the per-page image index `imagens_por_pagina`
(built by `_extrair_todas_imagens`).  The bounding rectangle is kept
abstractly: the core logic never inspects its coordinates. -/
structure ImgInfo where
  arquivo : String
  caminho : String
  pagina : Nat
  index : Nat
  bbox : Option (Int × Int × Int × Int)
  formato : String
  deriving DecidableEq, Repr

/-- The four-field image dictionary that `_encontrar_imagens_por_numero`
returns for each associated image. -/
structure ImgRef where
  arquivo : String
  caminho : String
  pagina : Nat
  formato : String
  deriving DecidableEq, Repr

/-- The mapping `imagens_por_pagina : page number -> images on that page`,
modelled as an association list with distinct keys (a Python dict). -/
abbrev ImageIndex := List (Nat × List ImgInfo)

/-- One option entry `(letra, texto)` produced by `_extrair_alternativas`. -/
structure Alternativa where
  letra : Char
  texto : List Char
  deriving DecidableEq, Repr

/-- The question dictionary built by `_estruturar_questao`. -/
structure Questao where
  numero : Nat
  materia : Option String
  instrucao : Option (List Char)
  enunciado : List Char
  alternativas : List Alternativa
  tipo : String
  temImagem : Bool
  imagens : List ImgRef
  formulas : List (List Char)
  deriving DecidableEq, Repr

/-- Dict lookup `imagens_por_pagina[p]`, `none` when `p` is not a key. -/
def lookupPagina (idx : ImageIndex) (p : Nat) : Option (List ImgInfo) :=
  (idx.find? (fun e => e.1 == p)).map (fun e => e.2)

/-- Images recorded for page `p` ([] when the page is absent from the index). -/
def imagensDaPagina (idx : ImageIndex) (p : Nat) : List ImgInfo :=
  (lookupPagina idx p).getD []

/-- Projection to the four-field dictionary appended by the association loop. -/
def imgRef (i : ImgInfo) : ImgRef :=
  { arquivo := i.arquivo, caminho := i.caminho, pagina := i.pagina, formato := i.formato }

/-- The reference-cue alternation of `_encontrar_imagens_por_numero`:
`figura|imagem|gráfico|tabela|diagrama|ilustração|quadro|mapa|inf|chart`. -/
def referenciasImagem : List (List Char) :=
  ["figura".data, "imagem".data, "gráfico".data, "tabela".data, "diagrama".data,
   "ilustração".data, "quadro".data, "mapa".data, "inf".data, "chart".data]

/-- Case-insensitive search for any cue word (`re.search(..., re.IGNORECASE)`
over an alternation of lowercase literals). -/
def temReferenciaImagem (texto : List Char) : Bool :=
  referenciasImagem.any (fun cue => contemSub cue (texto.map lowerPy))

/-- The window loop of `_encontrar_imagens_por_numero`: visit the given page
offsets in order; on the first page key whose image list makes the accumulator
non-empty, stop and return the images of that page (already projected). -/
def buscarJanela (idx : ImageIndex) (pagina : Nat) : List Nat → List ImgRef
  | [] => []
  | off :: resto =>
    match lookupPagina idx (pagina + off) with
    | some imgs =>
      let acc := imgs.map imgRef
      if acc.isEmpty then buscarJanela idx pagina resto else acc
    | none => buscarJanela idx pagina resto

/-- Embedding of `_encontrar_imagens_por_numero(numero, texto, pagina, proxima)`:
no cue word means an immediate empty result; otherwise, with a known current
page, scan pages `pagina .. pagina+4`, stop at the first page bearing images,
and truncate to at most two entries (`[:2]`). -/
def encontrarImagensPorNumero (idx : ImageIndex) (numeroQuestao : Nat)
    (textoQuestao : List Char) (paginaAtual : Option Nat)
    (proximaQuestao : Option Nat) : List ImgRef :=
  if temReferenciaImagem textoQuestao then
    match paginaAtual with
    | some p => (buscarJanela idx p [0, 1, 2, 3, 4]).take 2
    | none => []
  else []

/-- The ordered subject keyword table shared by `_detectar_materia` and
`_extrair_materia_contexto` (a Python dict, iterated in insertion order). -/
def materias : List (List Char × String) :=
  [("PORTUGUÊS".data, "Português"), ("LITERATURA".data, "Literatura"),
   ("MATEMÁTICA".data, "Matemática"), ("FÍSICA".data, "Física"),
   ("QUÍMICA".data, "Química"), ("HISTÓRIA".data, "História"),
   ("GEOGRAFIA".data, "Geografia"), ("BIOLOGIA".data, "Biologia")]

/-- Case-insensitive prefix match of a keyword; returns the rest of the text
after the keyword when it matches. -/
def coincideKw : List Char → List Char → Option (List Char)
  | [], resto => some resto
  | _ :: _, [] => none
  | k :: ks, c :: cs => if lowerPy c = lowerPy k then coincideKw ks cs else none

/-- Word boundary on the left of a keyword occurrence: start of text or a
non-word previous character (keywords begin with a word character). -/
def fronteiraAntes : Option Char → Bool
  | none => true
  | some d => !isWordChar d

/-- Word boundary on the right: end of text or a non-word next character. -/
def fronteiraDepois : List Char → Bool
  | [] => true
  | d :: _ => !isWordChar d

/-- Scan for the raw f-string regex that wraps `kw` between two word-boundary anchors, with `re.IGNORECASE`: a whole-word,
case-insensitive occurrence of `kw`, tracking the previous character. -/
def buscaPalavraAux (kw : List Char) : Option Char → List Char → Bool
  | _, [] => false
  | prev, c :: t =>
    (fronteiraAntes prev &&
      (match coincideKw kw (c :: t) with
       | some resto => fronteiraDepois resto
       | none => false)) ||
    buscaPalavraAux kw (some c) t

/-- Whole-word case-insensitive keyword search over a text. -/
def buscaPalavra (kw : List Char) (texto : List Char) : Bool :=
  buscaPalavraAux kw none texto

/-- The shared keyword loop: first table entry whose keyword occurs
whole-word case-insensitively wins. -/
def buscaTabela (texto : List Char) : List (List Char × String) → Option String
  | [] => none
  | e :: resto => if buscaPalavra e.1 texto then some e.2 else buscaTabela texto resto

/-- Embedding of `_extrair_materia_contexto(contexto)`: first matching keyword
of the table, else the current `materia_atual` (threaded as `ma`). -/
def extrairMateriaContexto (ma : Option String) (contexto : List Char) : Option String :=
  match buscaTabela contexto materias with
  | some m => some m
  | none => ma

/-- Embedding of `_detectar_materia(texto)` as a state transformer on
`materia_atual`: set it to the first matching keyword, else leave it. -/
def detectarMateria (ma : Option String) (texto : List Char) : Option String :=
  match buscaTabela texto materias with
  | some m => some m
  | none => ma

/-- Attempt to match `\[PAGINA:(\d+)\]` exactly at the head of the text. -/
def tentarPaginaAt (cs : List Char) : Option Nat :=
  if ("[PAGINA:".data).isPrefixOf cs then
    let r := cs.drop 8
    let ds := r.takeWhile Char.isDigit
    if ds.isEmpty then none
    else if (r.drop ds.length).head? = some ']' then some (digitsVal ds) else none
  else none

/-- Embedding of `_extrair_pagina_contexto(contexto)`: `re.search` takes the
leftmost occurrence of `\[PAGINA:(\d+)\]`. -/
def extrairPaginaContexto : List Char → Option Nat
  | [] => none
  | c :: t =>
    match tentarPaginaAt (c :: t) with
    | some n => some n
    | none => extrairPaginaContexto t

/-- The two spellings the instruction regex alternation accepts literally:
the pattern of `_extrair_instrucao` is compiled with `re.DOTALL` only, so the
label must read exactly `Instrução:` or `INSTRUÇÃO:`. -/
def ehRotuloInstrucao (cs : List Char) : Bool :=
  ("Instrução:".data).isPrefixOf cs || ("INSTRUÇÃO:".data).isPrefixOf cs

/-- Zero-width lookahead shared by the instruction regexes: a newline followed
by an opening parenthesis, or the dollar anchor (end of text, or just before a
single final newline, since `re.MULTILINE` is not set). -/
def lookFimInstrucao : List Char → Bool
  | '\n' :: '(' :: _ => true
  | [] => true
  | ['\n'] => true
  | _ => false

/-- Lazy group of the instruction pattern: the shortest non-empty run of
characters (DOTALL, so newlines included) after which the lookahead holds.
It always succeeds on non-empty input because the dollar anchor holds at the
end; the pair is (captured group, text at the lookahead position). -/
def lazyGrupoInstrucao : List Char → Option (List Char × List Char)
  | [] => none
  | c :: t =>
    if lookFimInstrucao t then some ([c], t)
    else (lazyGrupoInstrucao t).map (fun br => (c :: br.1, br.2))

/-- Matching of the part after the label: greedy whitespace run, then the lazy
group.  When the whole tail is whitespace the greedy run backtracks by one
character so that the group can take it. -/
def grupoInstrucao (aposRotulo : List Char) : Option (List Char) :=
  let w := (aposRotulo.takeWhile isWs).length
  let rest := aposRotulo.drop w
  match lazyGrupoInstrucao rest with
  | some br => some br.1
  | none => if 1 ≤ w then some ((aposRotulo.take w).drop (w - 1)) else none

/-- Leftmost-match scan of the instruction pattern over the body. -/
def buscaInstrucao : List Char → Option (List Char)
  | [] => none
  | c :: t =>
    if ehRotuloInstrucao (c :: t) then
      match grupoInstrucao ((c :: t).drop 10) with
      | some g => some g
      | none => buscaInstrucao t
    else buscaInstrucao t

/-- Embedding of `_extrair_instrucao(texto)`: the stripped first capture, or
`none` when the pattern does not occur. -/
def extrairInstrucao (texto : List Char) : Option (List Char) :=
  (buscaInstrucao texto).map pyStrip

/-- Lazy zero-or-more run used by the `re.sub` of `_extrair_enunciado`: consume
the shortest run of characters after which `lookFimInstrucao` holds and return
the remaining text (the run itself is deleted together with the label). -/
def lazyZeroInstrucao : List Char → List Char
  | [] => []
  | c :: t => if lookFimInstrucao (c :: t) then c :: t else lazyZeroInstrucao t

/-- Fuelled scan of the instruction-removal `re.sub`: each occurrence of the
label is deleted together with its lazy tail, and scanning resumes right after
the deleted text.  The fuel is the length of the scanned text, which bounds
the number of scan steps since every step consumes at least one character. -/
def subInstrucaoF : Nat → List Char → List Char
  | 0, cs => cs
  | _ + 1, [] => []
  | fuel + 1, c :: t =>
    if ehRotuloInstrucao (c :: t) then subInstrucaoF fuel (lazyZeroInstrucao ((c :: t).drop 10))
    else c :: subInstrucaoF fuel t

/-- Instruction-span removal (the first `re.sub` of `_extrair_enunciado`). -/
def subInstrucao (texto : List Char) : List Char :=
  subInstrucaoF texto.length texto

/-- Test for a newline, optional whitespace, and an option marker with letter
`A`-`E` — the delimiter consumed after the lazy enunciation group. -/
def lookMarcadorEnunciado : List Char → Bool
  | '\n' :: r =>
    (match r.dropWhile isWs with
     | '(' :: x :: ')' :: _ => x = 'A' || x = 'B' || x = 'C' || x = 'D' || x = 'E'
     | _ => false)
  | _ => false

/-- Lazy group anchored at the start of the cleaned text: the shortest
non-empty prefix followed by a newline, optional whitespace and an `(A)`-`(E)`
marker; `none` when no such delimiter follows. -/
def grupoEnunciado : List Char → Option (List Char)
  | [] => none
  | c :: t =>
    if lookMarcadorEnunciado t then some [c]
    else (grupoEnunciado t).map (fun g => c :: g)

/-- Attempt to match the line-citation pattern (letter `l`, a period, optional
whitespace, one or more digits) at the head; returns the text after it. -/
def tentarCitacaoLinha : List Char → Option (List Char)
  | 'l' :: '.' :: r =>
    let r2 := r.dropWhile isWs
    let ds := r2.takeWhile Char.isDigit
    if ds.isEmpty then none else some (r2.drop ds.length)
  | _ => none

/-- Fuelled scan of the line-citation `re.sub` inside `_extrair_enunciado`. -/
def subCitacaoLinhaF : Nat → List Char → List Char
  | 0, cs => cs
  | _ + 1, [] => []
  | fuel + 1, c :: t =>
    match tentarCitacaoLinha (c :: t) with
    | some r => subCitacaoLinhaF fuel r
    | none => c :: subCitacaoLinhaF fuel t

/-- Removal of every line-citation fragment. -/
def subCitacaoLinha (cs : List Char) : List Char :=
  subCitacaoLinhaF cs.length cs

/-- Embedding of `_extrair_enunciado(texto)`: delete the instruction spans,
take the lazy prefix before the first newline-plus-option marker (stripped and
with line citations removed), or the whole stripped cleaned text when no
option marker is found. -/
def extrairEnunciado (texto : List Char) : List Char :=
  let limpo := subInstrucao texto
  match grupoEnunciado limpo with
  | some g => subCitacaoLinha (pyStrip g)
  | none => pyStrip limpo

/-- Zero-width lookahead of the option pattern: an `(A)`-`(F)` marker (the `F`
bound guards a stray sixth marker), or the dollar anchor. -/
def lookFimAlternativa : List Char → Bool
  | '(' :: x :: ')' :: _ =>
    x = 'A' || x = 'B' || x = 'C' || x = 'D' || x = 'E' || x = 'F'
  | [] => true
  | ['\n'] => true
  | _ => false

/-- Lazy option body: shortest non-empty run (DOTALL) after which the option
lookahead holds; always succeeds on non-empty input. -/
def lazyGrupoAlternativa : List Char → Option (List Char × List Char)
  | [] => none
  | c :: t =>
    if lookFimAlternativa t then some ([c], t)
    else (lazyGrupoAlternativa t).map (fun br => (c :: br.1, br.2))

/-- Whitespace run plus lazy body after an option marker, with the same
one-character backtrack as the instruction pattern when the tail is all
whitespace. -/
def corpoAlternativa (apos : List Char) : Option (List Char × List Char) :=
  let w := (apos.takeWhile isWs).length
  let rest := apos.drop w
  match lazyGrupoAlternativa rest with
  | some br => some br
  | none => if 1 ≤ w then some ((apos.take w).drop (w - 1), []) else none

/-- Attempt to match one option `(X) body` at the head of the text; the triple
is (letter, raw captured body, text at the end of the match). -/
def tentarAlternativaAt : List Char → Option (Char × List Char × List Char)
  | '(' :: x :: ')' :: r =>
    if x = 'A' || x = 'B' || x = 'C' || x = 'D' || x = 'E' then
      (corpoAlternativa r).map (fun br => (x, br.1, br.2))
    else none
  | _ => none

/-- Fuelled `re.finditer` scan for option markers: on a match, resume at the
match end; otherwise advance one character. -/
def scanAlternativasF : Nat → List Char → List (Char × List Char)
  | 0, _ => []
  | _ + 1, [] => []
  | fuel + 1, c :: t =>
    match tentarAlternativaAt (c :: t) with
    | some (x, b, r) => (x, b) :: scanAlternativasF fuel r
    | none => scanAlternativasF fuel t

/-- Collapse of every maximal whitespace run to a single space. -/
def colapsaWs : List Char → List Char
  | [] => []
  | c :: t =>
    if isWs c then
      match t with
      | d :: _ => if isWs d then colapsaWs t else ' ' :: colapsaWs t
      | [] => [' ']
    else c :: colapsaWs t

/-- Python `' '.join(s.split())`: whitespace normalization of an option body. -/
def normalizaEspacos (cs : List Char) : List Char :=
  pyStrip (colapsaWs cs)

/-- Embedding of `_extrair_alternativas(texto)`: every matched option whose
whitespace-normalized body is non-empty, in match order. -/
def extrairAlternativas (texto : List Char) : List Alternativa :=
  (scanAlternativasF texto.length texto).filterMap (fun par =>
    let conteudo := normalizaEspacos par.2
    if conteudo.isEmpty then none else some { letra := par.1, texto := conteudo })

/-- Test for the `(V)` / `(F)` true-false markers. -/
def contemVF (texto : List Char) : Bool :=
  contemSub ("(V)".data) texto || contemSub ("(F)".data) texto

/-- Test for the mathematical alternation: one of the listed symbols, the
substring `frac` or `sqrt`, or a caret. -/
def contemSimboloMatematico (texto : List Char) : Bool :=
  texto.any (fun c =>
    c = '∫' || c = '∑' || c = '∏' || c = '√' || c = '±' || c = '×' ||
    c = '÷' || c = '≤' || c = '≥' || c = '≠' || c = '∞') ||
  contemSub ("frac".data) texto || contemSub ("sqrt".data) texto ||
  texto.any (fun c => c = '^')

/-- Embedding of `_classificar_tipo_questao(texto)`, first matching rule
wins: the V/F marker, then a mathematical symbol, then length above 800,
then the multiple-choice default. -/
def classificarTipo (texto : List Char) : String :=
  if contemVF texto then "verdadeiro_falso"
  else if contemSimboloMatematico texto then "calculo"
  else if 800 < texto.length then "interpretacao_texto"
  else "multipla_escolha"

/-- Attempt to match a lowercase letter, caret, digit at the head (the first
formula pattern, minus its leading word boundary, which the scanner checks). -/
def tentarPotencia : List Char → Option (Char × Char × List Char)
  | a :: '^' :: d :: r =>
    if ('a' ≤ a && a ≤ 'z') && d.isDigit then some (a, d, r) else none
  | _ => none

/-- Fuelled `re.findall` scan for the power pattern, tracking the previous
character for the word boundary before the letter. -/
def acharPotenciasF : Nat → Option Char → List Char → List (List Char)
  | 0, _, _ => []
  | _ + 1, _, [] => []
  | fuel + 1, prev, c :: t =>
    match (if fronteiraAntes prev then tentarPotencia (c :: t) else none) with
    | some (a, d, r) => [a, '^', d] :: acharPotenciasF fuel (some d) r
    | none => acharPotenciasF fuel (some c) t

/-- Lazy one-or-more run (no DOTALL here: `re.findall` is called without
flags, so the dot excludes newlines) up to the first closing brace; the pair
is (run, text after the closing brace). -/
def lazyAteChave : List Char → Option (List Char × List Char)
  | [] => none
  | c :: t =>
    if c = '\n' then none
    else
      match t with
      | '\x7d' :: r => some ([c], r)
      | _ => (lazyAteChave t).map (fun br => (c :: br.1, br.2))

/-- Second half of the frac pattern: an opening brace, a lazy run, a closing
brace; the pair is (consumed text including both braces, rest). -/
def tentarSegundoGrupoFrac : List Char → Option (List Char × List Char)
  | '\x7b' :: r =>
    (lazyAteChave r).map (fun br => ('\x7b' :: (br.1 ++ ['\x7d']), br.2))
  | _ => none

/-- First lazy run of the frac pattern with full backtracking: the run extends
past closing braces after which the second group fails to match, exactly as
the regex engine backtracks; the triple is (first run, text consumed by the
second group, rest). -/
def lazyChaveDepois : List Char → Option (List Char × List Char × List Char)
  | [] => none
  | c :: t =>
    if c = '\n' then none
    else
      match t with
      | '\x7d' :: r =>
        (match tentarSegundoGrupoFrac r with
         | some (m2, resto) => some ([c], m2, resto)
         | none => (lazyChaveDepois t).map (fun x => (c :: x.1, x.2.1, x.2.2)))
      | _ => (lazyChaveDepois t).map (fun x => (c :: x.1, x.2.1, x.2.2))

/-- Attempt to match the frac pattern at the head; the pair is
(full matched text, rest). -/
def tentarFrac (cs : List Char) : Option (List Char × List Char) :=
  if ("\\frac\x7b".data).isPrefixOf cs then
    (lazyChaveDepois (cs.drop 6)).map (fun x =>
      ("\\frac\x7b".data ++ x.1 ++ ('\x7d' :: x.2.1), x.2.2))
  else none

/-- Attempt to match the sqrt pattern at the head. -/
def tentarSqrt (cs : List Char) : Option (List Char × List Char) :=
  if ("\\sqrt\x7b".data).isPrefixOf cs then
    (lazyAteChave (cs.drop 6)).map (fun br =>
      ("\\sqrt\x7b".data ++ br.1 ++ ['\x7d'], br.2))
  else none

/-- Lazy run of the integral pattern up to the first `d` followed by `x`, `y`
or `z`; the pair is (matched text after the integral sign, rest). -/
def lazyIntegral : List Char → Option (List Char × List Char)
  | [] => none
  | c :: t =>
    if c = '\n' then none
    else
      match t with
      | 'd' :: v :: r =>
        if v = 'x' || v = 'y' || v = 'z' then some ([c, 'd', v], r)
        else (lazyIntegral t).map (fun br => (c :: br.1, br.2))
      | _ => (lazyIntegral t).map (fun br => (c :: br.1, br.2))

/-- Attempt to match the integral pattern at the head. -/
def tentarIntegral : List Char → Option (List Char × List Char)
  | '∫' :: t => (lazyIntegral t).map (fun br => ('∫' :: br.1, br.2))
  | _ => none

/-- Fuelled `re.findall` scan for one head-matching pattern: on a match,
resume at the match end; otherwise advance one character. -/
def acharPadraoF (tentar : List Char → Option (List Char × List Char)) :
    Nat → List Char → List (List Char)
  | 0, _ => []
  | _ + 1, [] => []
  | fuel + 1, c :: t =>
    match tentar (c :: t) with
    | some (m, r) => m :: acharPadraoF tentar fuel r
    | none => acharPadraoF tentar fuel t

/-- Embedding of `_extrair_formulas(texto)`: the concatenated match lists of
the four patterns, deduplicated.  Python materializes `list(set(...))`, whose
order is unspecified; the embedding fixes one concrete duplicate-free list. -/
def extrairFormulas (texto : List Char) : List (List Char) :=
  (acharPotenciasF texto.length none texto ++
   acharPadraoF tentarFrac texto.length texto ++
   acharPadraoF tentarSqrt texto.length texto ++
   acharPadraoF tentarIntegral texto.length texto).dedup

/-- Zero-width lookahead of the question pattern: a newline, optional
whitespace, a run of one to three digits, optional whitespace, a period and at
least one whitespace character. -/
def lookProximaQuestao (cs : List Char) : Bool :=
  match cs with
  | '\n' :: rest =>
    let r1 := rest.dropWhile isWs
    let ds := r1.takeWhile Char.isDigit
    decide (1 ≤ ds.length) && decide (ds.length ≤ 3) &&
    (match (r1.drop ds.length).dropWhile isWs with
     | '.' :: r3 =>
       (match r3 with
        | d :: _ => isWs d
        | [] => false)
     | _ => false)
  | _ => false

/-- Lazy question body (DOTALL): shortest non-empty run after which the
next-question lookahead holds or the absolute end anchor is reached. -/
def lazyCorpoQuestao : List Char → Option (List Char × List Char)
  | [] => none
  | c :: t =>
    if lookProximaQuestao t || t.isEmpty then some ([c], t)
    else (lazyCorpoQuestao t).map (fun br => (c :: br.1, br.2))

/-- Required whitespace plus lazy body after the question period: the greedy
run must be non-empty, and when the whole tail is whitespace it backtracks by
one character (keeping at least one) so the body can take the last one. -/
def corpoQuestao (r3 : List Char) : Option (List Char × List Char) :=
  let w := (r3.takeWhile isWs).length
  if w = 0 then none
  else
    match lazyCorpoQuestao (r3.drop w) with
    | some br => some br
    | none => if 2 ≤ w then some ((r3.take w).drop (w - 1), []) else none

/-- Matching of the question pattern after its leading newline; the triple is
(question number, raw body capture, text at the match end). -/
def questaoAposQuebra (rest : List Char) : Option (Nat × List Char × List Char) :=
  let r1 := rest.dropWhile isWs
  let ds := r1.takeWhile Char.isDigit
  if 1 ≤ ds.length ∧ ds.length ≤ 3 then
    match (r1.drop ds.length).dropWhile isWs with
    | '.' :: r3 => (corpoQuestao r3).map (fun br => (digitsVal ds, br.1, br.2))
    | _ => none
  else none

/-- Attempt to match the question pattern at the head of the text. -/
def matchQuestaoAt (cs : List Char) : Option (Nat × List Char × List Char) :=
  match cs with
  | c :: rest => if c = '\n' then questaoAposQuebra rest else none
  | [] => none

/-- Fuelled `re.finditer` scan of the question pattern: on a match, emit
(number, raw body, match start) and resume at the match end; otherwise advance
one character.  Every step consumes at least one character, so a fuel equal to
the text length never runs out. -/
def scanQuestoesF : Nat → List Char → Nat → List (Nat × List Char × Nat)
  | 0, _, _ => []
  | _ + 1, [], _ => []
  | fuel + 1, c :: t, pos =>
    match matchQuestaoAt (c :: t) with
    | some (n, b, r) =>
      (n, b, pos) :: scanQuestoesF fuel r (pos + ((c :: t).length - r.length))
    | none => scanQuestoesF fuel t (pos + 1)

/-- Embedding of the `re.finditer` pass of `_processar_texto_completo`. -/
def segmentarQuestoes (texto : List Char) : List (Nat × List Char × Nat) :=
  scanQuestoesF texto.length texto 0

/-- Embedding of `_estruturar_questao`: assemble the question dictionary from
the stripped body and the recovered context data. -/
def estruturarQuestao (idx : ImageIndex) (numero : Nat) (texto : List Char)
    (materia : Option String) (pagina : Option Nat) (proximaQuestao : Option Nat) :
    Questao :=
  let imagensRelacionadas := encontrarImagensPorNumero idx numero texto pagina proximaQuestao
  { numero := numero
    materia := materia
    instrucao := extrairInstrucao texto
    enunciado := extrairEnunciado texto
    alternativas := extrairAlternativas texto
    tipo := classificarTipo texto
    temImagem := decide (0 < imagensRelacionadas.length)
    imagens := imagensRelacionadas
    formulas := extrairFormulas texto }

/-- The per-match loop of `_processar_texto_completo`: recover the subject and
page from the 500 characters before the match start, look ahead to the number
of the next match, and keep only bodies longer than five characters after
stripping. -/
def processarMatches (idx : ImageIndex) (ma : Option String) (texto : List Char) :
    List (Nat × List Char × Nat) → List Questao
  | [] => []
  | (n, corpo, i) :: resto =>
    let contexto := (texto.take i).drop (i - 500)
    let materia := extrairMateriaContexto ma contexto
    let pagina := extrairPaginaContexto contexto
    let proxima : Option Nat :=
      match resto with
      | [] => none
      | (n2, _, _) :: _ => some n2
    let t := pyStrip corpo
    if t ≠ [] ∧ 5 < t.length then
      estruturarQuestao idx n t materia pagina proxima ::
        processarMatches idx ma texto resto
    else processarMatches idx ma texto resto

/-- Embedding of `_processar_texto_completo(texto)`. -/
def processarTextoCompleto (idx : ImageIndex) (ma : Option String)
    (texto : List Char) : List Questao :=
  processarMatches idx ma texto (segmentarQuestoes texto)

/-- Sort key of the assembler: ascending question number. -/
def ordNumero (a b : Questao) : Prop := a.numero ≤ b.numero

instance : DecidableRel ordNumero :=
  fun a b => inferInstanceAs (Decidable (a.numero ≤ b.numero))

/-- The assembler steps of `extrair_todas_questoes`: drop questions whose
stripped enunciation is empty, then sort by question number.  Python
`list.sort` is a stable ascending sort by the key; it is modelled by the
stable `List.insertionSort`. -/
def filtrarOrdenar (qs : List Questao) : List Questao :=
  List.insertionSort ordNumero (qs.filter (fun q => !(pyStrip q.enunciado).isEmpty))

/-- The text-processing core of `extrair_todas_questoes`, from the completed
marked text and the frozen image index to the final ordered collection. -/
def extrairQuestoesDeTexto (idx : ImageIndex) (ma : Option String)
    (texto : List Char) : List Questao :=
  filtrarOrdenar (processarTextoCompleto idx ma texto)

/-! Helper lemmas about the embedding. -/

theorem isPrefixOf_append_self (l r : List Char) : l.isPrefixOf (l ++ r) = true := by
  induction l with
  | nil => simp [List.isPrefixOf]
  | cons c t ih => simp [List.isPrefixOf, ih]

theorem takeWhile_append_of_forall {p : Char → Bool} (ds : List Char) (y : Char)
    (post : List Char) (h1 : ∀ c ∈ ds, p c = true) (h2 : p y = false) :
    (ds ++ y :: post).takeWhile p = ds := by
  induction ds with
  | nil => simp [List.takeWhile, h2]
  | cons c t ih =>
    have hc : p c = true := h1 c (by simp)
    simp [List.takeWhile, hc, ih (fun d hd => h1 d (by simp [hd]))]

theorem digitVal_le_nine (c : Char) (h : c.isDigit = true) : digitVal c ≤ 9 := by
  simp [Char.isDigit] at h
  have h2 : c.toNat ≤ 57 := h.2
  simp [digitVal]
  omega

theorem digitsVal_foldl_lt (ds : List Char) :
    ∀ a : Nat, (∀ c ∈ ds, c.isDigit = true) →
      ds.foldl (fun x c => 10 * x + digitVal c) a < (a + 1) * 10 ^ ds.length := by
  induction ds with
  | nil => intro a _; simp
  | cons c t ih =>
    intro a h
    have hd : digitVal c ≤ 9 := digitVal_le_nine c (h c (by simp))
    have ht := ih (10 * a + digitVal c) (fun d hd2 => h d (by simp [hd2]))
    have hle : (10 * a + digitVal c + 1) * 10 ^ t.length ≤ (a + 1) * 10 ^ (t.length + 1) := by
      have : 10 * a + digitVal c + 1 ≤ (a + 1) * 10 := by omega
      calc (10 * a + digitVal c + 1) * 10 ^ t.length
          ≤ ((a + 1) * 10) * 10 ^ t.length := Nat.mul_le_mul_right _ this
        _ = (a + 1) * 10 ^ (t.length + 1) := by ring
    simpa [List.foldl] using lt_of_lt_of_le ht hle

theorem digitsVal_le_999 (ds : List Char) (h : ∀ c ∈ ds, c.isDigit = true)
    (hlen : ds.length ≤ 3) : digitsVal ds ≤ 999 := by
  have h1 := digitsVal_foldl_lt ds 0 h
  have h2 : 10 ^ ds.length ≤ 10 ^ 3 := Nat.pow_le_pow_right (by omega) hlen
  simp [digitsVal] at h1 ⊢
  omega

/-! Shared concrete example data used by witnesses. -/

def imgExemplo1 : ImgInfo :=
  { arquivo := "pag5_img0.png", caminho := "imagens_questoes/pag5_img0.png",
    pagina := 5, index := 0, bbox := none, formato := "png" }

def imgExemplo2 : ImgInfo :=
  { arquivo := "pag5_img1.png", caminho := "imagens_questoes/pag5_img1.png",
    pagina := 5, index := 1, bbox := none, formato := "png" }

def imgExemplo3 : ImgInfo :=
  { arquivo := "pag5_img2.jpg", caminho := "imagens_questoes/pag5_img2.jpg",
    pagina := 5, index := 2, bbox := none, formato := "jpg" }

def imgExemplo4 : ImgInfo :=
  { arquivo := "pag6_img0.png", caminho := "imagens_questoes/pag6_img0.png",
    pagina := 6, index := 0, bbox := none, formato := "png" }

def indiceExemplo : ImageIndex :=
  [(5, [imgExemplo1, imgExemplo2, imgExemplo3]), (6, [imgExemplo4])]

/-- C10: the image-association result does not depend on the next-question
number: `_encontrar_imagens_por_numero` never reads its `proxima_questao`
parameter, so any two values give the same result. -/
theorem imagens_independem_da_proxima (idx : ImageIndex) (n : Nat)
    (texto : List Char) (pagina : Option Nat) (prox1 prox2 : Option Nat) :
    encontrarImagensPorNumero idx n texto pagina prox1 =
      encontrarImagensPorNumero idx n texto pagina prox2 := rfl

/-- C4: a body with no case-insensitive occurrence of any reference-cue word
yields an empty image list, whatever the index, current page and next-question
number are. -/
theorem sem_referencia_sem_imagens (idx : ImageIndex) (n : Nat) (corpo : List Char)
    (pagina : Option Nat) (prox : Option Nat)
    (h : ∀ cue ∈ referenciasImagem, contemSub cue (corpo.map lowerPy) = false) :
    encontrarImagensPorNumero idx n corpo pagina prox = [] := by
  have href : temReferenciaImagem corpo = false := by
    rw [temReferenciaImagem, List.any_eq_false]
    intro cue hc
    simp [h cue hc]
  simp [encontrarImagensPorNumero, href]

theorem sem_referencia_sem_imagens_w :
    (∀ cue ∈ referenciasImagem,
        contemSub cue ("Qual o valor de dois mais dois".data.map lowerPy) = false) ∧
    encontrarImagensPorNumero indiceExemplo 7 "Qual o valor de dois mais dois".data
        (some 5) (some 8) = [] :=
  ⟨by decide, sem_referencia_sem_imagens indiceExemplo 7 _ (some 5) (some 8) (by decide)⟩

/-- C7: the type rules apply in priority order: a `(V)`/`(F)` marker always
gives `verdadeiro_falso` (the true-false tag), even over mathematical tokens;
else a mathematical token gives `calculo`; else length above 800 gives
`interpretacao_texto`; else `multipla_escolha`.  The concrete body carrying
both `(V)` and an integral sign classifies as `verdadeiro_falso`. -/
theorem classificacao_prioridade :
    (∀ t : List Char, contemVF t = true → classificarTipo t = "verdadeiro_falso") ∧
    (∀ t : List Char, contemVF t = false → contemSimboloMatematico t = true →
        classificarTipo t = "calculo") ∧
    (∀ t : List Char, contemVF t = false → contemSimboloMatematico t = false →
        800 < t.length → classificarTipo t = "interpretacao_texto") ∧
    (∀ t : List Char, contemVF t = false → contemSimboloMatematico t = false →
        t.length ≤ 800 → classificarTipo t = "multipla_escolha") ∧
    contemVF "(V) afirmação com ∫ x dx".data = true ∧
    contemSimboloMatematico "(V) afirmação com ∫ x dx".data = true ∧
    classificarTipo "(V) afirmação com ∫ x dx".data = "verdadeiro_falso" := by
  refine ⟨?_, ?_, ?_, ?_, by decide, by decide, by decide⟩
  · intro t h; simp [classificarTipo, h]
  · intro t h1 h2; simp [classificarTipo, h1, h2]
  · intro t h1 h2 h3; simp [classificarTipo, h1, h2, h3]
  · intro t h1 h2 h3
    simp [classificarTipo, h1, h2]
    omega

theorem classificacao_prioridade_w :
    contemVF "(F) dois mais dois são cinco".data = true ∧
    classificarTipo "(F) dois mais dois são cinco".data = "verdadeiro_falso" :=
  ⟨by decide, classificacao_prioridade.1 _ (by decide)⟩

theorem buscarJanela_pula (idx : ImageIndex) (pg off : Nat) (resto : List Nat)
    (h : imagensDaPagina idx (pg + off) = []) :
    buscarJanela idx pg (off :: resto) = buscarJanela idx pg resto := by
  rw [buscarJanela]
  cases hl : lookupPagina idx (pg + off) with
  | none => rfl
  | some l =>
    have hnil : l = [] := by simpa [imagensDaPagina, hl] using h
    subst hnil
    simp

theorem buscarJanela_acha (idx : ImageIndex) (pg off : Nat) (resto : List Nat)
    (h : imagensDaPagina idx (pg + off) ≠ []) :
    buscarJanela idx pg (off :: resto) = (imagensDaPagina idx (pg + off)).map imgRef := by
  rw [buscarJanela]
  cases hl : lookupPagina idx (pg + off) with
  | none => exact absurd (by simp [imagensDaPagina, hl]) h
  | some l =>
    have hne : l ≠ [] := by simpa [imagensDaPagina, hl] using h
    have hie : (l.map imgRef).isEmpty = false := by
      cases l with
      | nil => exact absurd rfl hne
      | cons a t => rfl
    simp [imagensDaPagina, hl, hie]

/-- C3: with a cue-bearing body and a known current page `p`, the association
scans pages `p .. p+4` in ascending order, returns all images of the first
page holding at least one image, truncated to two entries, and never
accumulates images of any later page of the window. -/
theorem janela_para_na_primeira_pagina (idx : ImageIndex) (n : Nat)
    (corpo : List Char) (prox : Option Nat) (p j : Nat)
    (hcue : temReferenciaImagem corpo = true) (hj : j < 5)
    (hantes : ∀ k, k < j → imagensDaPagina idx (p + k) = [])
    (hacha : imagensDaPagina idx (p + j) ≠ []) :
    encontrarImagensPorNumero idx n corpo (some p) prox =
      ((imagensDaPagina idx (p + j)).map imgRef).take 2 := by
  have hjanela : encontrarImagensPorNumero idx n corpo (some p) prox =
      (buscarJanela idx p [0, 1, 2, 3, 4]).take 2 := by
    simp [encontrarImagensPorNumero, hcue]
  rw [hjanela]
  interval_cases j
  · rw [buscarJanela_acha idx p 0 _ hacha]
  · rw [buscarJanela_pula idx p 0 _ (hantes 0 (by omega)),
      buscarJanela_acha idx p 1 _ hacha]
  · rw [buscarJanela_pula idx p 0 _ (hantes 0 (by omega)),
      buscarJanela_pula idx p 1 _ (hantes 1 (by omega)),
      buscarJanela_acha idx p 2 _ hacha]
  · rw [buscarJanela_pula idx p 0 _ (hantes 0 (by omega)),
      buscarJanela_pula idx p 1 _ (hantes 1 (by omega)),
      buscarJanela_pula idx p 2 _ (hantes 2 (by omega)),
      buscarJanela_acha idx p 3 _ hacha]
  · rw [buscarJanela_pula idx p 0 _ (hantes 0 (by omega)),
      buscarJanela_pula idx p 1 _ (hantes 1 (by omega)),
      buscarJanela_pula idx p 2 _ (hantes 2 (by omega)),
      buscarJanela_pula idx p 3 _ (hantes 3 (by omega)),
      buscarJanela_acha idx p 4 _ hacha]

theorem janela_para_na_primeira_pagina_w :
    temReferenciaImagem "Observe a figura a seguir".data = true ∧
    imagensDaPagina indiceExemplo 5 ≠ [] ∧
    imagensDaPagina indiceExemplo 6 ≠ [] ∧
    encontrarImagensPorNumero indiceExemplo 1 "Observe a figura a seguir".data
        (some 5) (some 2) = [imgRef imgExemplo1, imgRef imgExemplo2] :=
  ⟨by decide, by decide, by decide,
    (janela_para_na_primeira_pagina indiceExemplo 1 _ (some 2) 5 0 (by decide)
      (by omega) (fun k hk => absurd hk (by omega)) (by decide)).trans (by decide)⟩

instance : IsTotal Questao ordNumero :=
  ⟨fun a b => Nat.le_total a.numero b.numero⟩

instance : IsTrans Questao ordNumero :=
  ⟨fun _ _ _ h1 h2 => Nat.le_trans h1 h2⟩

/-- Minimal question record used by the assembly examples. -/
def questaoSimples (n : Nat) (enun : List Char) : Questao :=
  { numero := n, materia := none, instrucao := none, enunciado := enun,
    alternativas := [], tipo := "multipla_escolha", temImagem := false,
    imagens := [], formulas := [] }

def qExemplo3 : Questao := questaoSimples 3 "Enunciado da questão três".data

def qExemplo1a : Questao := questaoSimples 1 "Primeira com número um".data

def qExemplo1b : Questao := questaoSimples 1 "Segunda com número um".data

def qExemplo2vazia : Questao := questaoSimples 2 "   ".data

/-- C6: after assembly the collection holds exactly the records whose stripped
enunciation is non-empty (a permutation of the filtered input, so duplicates
are preserved and nothing is merged), sorted by question number in
non-decreasing order; the concrete collection with raw numbers 3, 1, 1, 2 and
an empty-enunciation record numbered 2 becomes exactly the three records
numbered 1, 1, 3 in order. -/
theorem montagem_filtra_e_ordena :
    (∀ qs : List Questao, (filtrarOrdenar qs).Sorted ordNumero ∧
        (filtrarOrdenar qs).Perm
          (qs.filter (fun q => !(pyStrip q.enunciado).isEmpty))) ∧
    filtrarOrdenar [qExemplo3, qExemplo1a, qExemplo1b, qExemplo2vazia] =
      [qExemplo1a, qExemplo1b, qExemplo3] ∧
    (filtrarOrdenar [qExemplo3, qExemplo1a, qExemplo1b, qExemplo2vazia]).map
        Questao.numero = [1, 1, 3] := by
  refine ⟨fun qs => ⟨?_, ?_⟩, by decide, by decide⟩
  · exact List.sorted_insertionSort ordNumero _
  · exact List.perm_insertionSort ordNumero _

/-- C2 counterexample: on a span holding two page markers the code returns the
number of the first one, 3, not of the last one, 4, as the claim demands. -/
theorem pagina_nao_e_o_ultimo_marcador :
    extrairPaginaContexto "[PAGINA:3] x [PAGINA:4]".data = some 3 ∧
    extrairPaginaContexto "[PAGINA:3] x [PAGINA:4]".data ≠ some 4 := by
  constructor
  · decide
  · decide

theorem tentarPaginaAt_sem_rotulo (c : Char) (t : List Char)
    (h : ("[PAGINA:".data).isPrefixOf (c :: t) = false) :
    tentarPaginaAt (c :: t) = none := by
  simp [tentarPaginaAt, h]

/-- C2 amended: page recovery returns the page number of the first
`[PAGINA:n]` marker of the context span (the leftmost match of `re.search`),
and none when the span holds no marker. -/
theorem pagina_e_o_primeiro_marcador :
    (∀ s : List Char, contemSub ("[PAGINA:".data) s = false →
        extrairPaginaContexto s = none) ∧
    (∀ ds post : List Char, ds ≠ [] → (∀ c ∈ ds, c.isDigit = true) →
        extrairPaginaContexto ("[PAGINA:".data ++ ds ++ ']' :: post) =
          some (digitsVal ds)) ∧
    extrairPaginaContexto "[PAGINA:3] x [PAGINA:4]".data = some 3 := by
  refine ⟨?_, ?_, by decide⟩
  · intro s h
    induction s with
    | nil => rfl
    | cons c t ih =>
      rw [contemSub] at h
      rcases Bool.or_eq_false_iff.mp h with ⟨h1, h2⟩
      rw [extrairPaginaContexto, tentarPaginaAt_sem_rotulo c t h1]
      exact ih h2
  · intro ds post hne hdig
    have hpre : ("[PAGINA:".data).isPrefixOf ("[PAGINA:".data ++ (ds ++ ']' :: post)) = true :=
      isPrefixOf_append_self _ _
    have hdrop : ("[PAGINA:".data ++ (ds ++ ']' :: post)).drop 8 = ds ++ ']' :: post := by
      have h8 : ("[PAGINA:".data).length = 8 := by decide
      rw [← h8, List.drop_left]
    have htake : (ds ++ ']' :: post).takeWhile Char.isDigit = ds :=
      takeWhile_append_of_forall ds ']' post hdig (by decide)
    have hdrop2 : (ds ++ ']' :: post).drop ds.length = ']' :: post :=
      List.drop_left ds (']' :: post)
    have hnem : ds.isEmpty = false := by
      cases ds with
      | nil => exact absurd rfl hne
      | cons a t => rfl
    have htent : tentarPaginaAt ("[PAGINA:".data ++ (ds ++ ']' :: post)) =
        some (digitsVal ds) := by
      simp only [tentarPaginaAt, hpre, if_true, hdrop, htake, hdrop2, hnem]
      simp
    have hcons : "[PAGINA:".data ++ ds ++ ']' :: post =
        '[' :: ("PAGINA:".data ++ (ds ++ ']' :: post)) := by
      simp
    rw [hcons, extrairPaginaContexto]
    have : tentarPaginaAt ('[' :: ("PAGINA:".data ++ (ds ++ ']' :: post))) =
        some (digitsVal ds) := by
      have : '[' :: ("PAGINA:".data ++ (ds ++ ']' :: post)) =
          "[PAGINA:".data ++ (ds ++ ']' :: post) := by simp
      rw [this, htent]
    rw [this]

theorem pagina_e_o_primeiro_marcador_w :
    (['4'] ≠ ([] : List Char)) ∧
    extrairPaginaContexto ("[PAGINA:".data ++ ['4'] ++ ']' :: " resto".data) = some 4 :=
  ⟨by decide,
    (pagina_e_o_primeiro_marcador.2.1 ['4'] " resto".data (by decide) (by decide)).trans
      (by decide)⟩

/-- C5 counterexample: the instruction pattern is compiled without
`re.IGNORECASE`, so the all-lowercase label is not matched and the claimed
capture does not happen. -/
theorem instrucao_nao_e_insensivel :
    extrairInstrucao "instrução: responda abaixo".data = none ∧
    extrairInstrucao "instrução: responda abaixo".data ≠
      some ("responda abaixo".data) := by
  constructor
  · decide
  · decide

theorem ehRotuloInstrucao_falso (c : Char) (t : List Char)
    (h1 : ("Instrução:".data).isPrefixOf (c :: t) = false)
    (h2 : ("INSTRUÇÃO:".data).isPrefixOf (c :: t) = false) :
    ehRotuloInstrucao (c :: t) = false := by
  simp [ehRotuloInstrucao, h1, h2]

/-- C5 amended: instruction extraction matches only the two exact spellings
`Instrução:` and `INSTRUÇÃO:` of the label — not other letter cases; a body
containing neither spelling yields no instruction, and for a body with such a
label the capture runs from just after the label to the next
newline-plus-parenthesis position or the end of the text. -/
theorem instrucao_rotulos_exatos :
    (∀ s : List Char, contemSub ("Instrução:".data) s = false →
        contemSub ("INSTRUÇÃO:".data) s = false → extrairInstrucao s = none) ∧
    extrairInstrucao "Instrução: leia o texto\n(A) sim".data =
      some ("leia o texto".data) ∧
    extrairInstrucao "INSTRUÇÃO: marque certo".data = some ("marque certo".data) ∧
    extrairInstrucao "instrução: responda abaixo".data = none := by
  refine ⟨?_, by decide, by decide, by decide⟩
  intro s h1 h2
  rw [extrairInstrucao]
  have hb : buscaInstrucao s = none := by
    induction s with
    | nil => rfl
    | cons c t ih =>
      rw [contemSub] at h1 h2
      rcases Bool.or_eq_false_iff.mp h1 with ⟨h1a, h1b⟩
      rcases Bool.or_eq_false_iff.mp h2 with ⟨h2a, h2b⟩
      rw [buscaInstrucao]
      rw [ehRotuloInstrucao_falso c t h1a h2a]
      simp only [Bool.false_eq_true, if_false]
      exact ih h1b h2b
  rw [hb]
  rfl

theorem instrucao_rotulos_exatos_w :
    contemSub ("Instrução:".data) "Resolva a equação dada".data = false ∧
    contemSub ("INSTRUÇÃO:".data) "Resolva a equação dada".data = false ∧
    extrairInstrucao "Resolva a equação dada".data = none :=
  ⟨by decide, by decide,
    instrucao_rotulos_exatos.1 "Resolva a equação dada".data (by decide) (by decide)⟩

theorem buscaTabela_nenhuma (texto : List Char) :
    ∀ tbl : List (List Char × String),
      (∀ e ∈ tbl, buscaPalavra e.1 texto = false) → buscaTabela texto tbl = none := by
  intro tbl
  induction tbl with
  | nil => intro _; rfl
  | cons e resto ih =>
    intro h
    rw [buscaTabela]
    rw [h e (by simp)]
    simp only [Bool.false_eq_true, if_false]
    exact ih (fun d hd => h d (by simp [hd]))

theorem buscaTabela_primeira (texto : List Char) :
    ∀ (tbl : List (List Char × String)) (i : Nat) (e : List Char × String),
      tbl.get? i = some e → buscaPalavra e.1 texto = true →
      (∀ j d, j < i → tbl.get? j = some d → buscaPalavra d.1 texto = false) →
      buscaTabela texto tbl = some e.2 := by
  intro tbl
  induction tbl with
  | nil => intro i e hg; simp at hg
  | cons cab resto ih =>
    intro i e hg hhit hantes
    cases i with
    | zero =>
      have he : cab = e := by simpa using hg
      subst he
      rw [buscaTabela, hhit]
      simp
    | succ i2 =>
      have hcabeca : buscaPalavra cab.1 texto = false :=
        hantes 0 cab (Nat.succ_pos i2) (by simp)
      rw [buscaTabela, hcabeca]
      simp only [Bool.false_eq_true, if_false]
      exact ih i2 e (by simpa using hg) hhit
        (fun j d hj hgd => hantes (j + 1) d (Nat.succ_lt_succ hj) (by simpa using hgd))

/-- C8: both subject classifiers search the eight keywords whole-word and
case-insensitively in fixed table order; the first keyword of the table that
occurs wins (so when a span mentions two keywords the earlier table entry is
returned), and when none occurs the fallback (the current subject) is
returned unchanged. -/
theorem materia_primeira_da_tabela :
    (∀ (ma : Option String) (texto : List Char),
        (∀ e ∈ materias, buscaPalavra e.1 texto = false) →
        extrairMateriaContexto ma texto = ma ∧ detectarMateria ma texto = ma) ∧
    (∀ (ma : Option String) (texto : List Char) (i : Nat) (e : List Char × String),
        materias.get? i = some e → buscaPalavra e.1 texto = true →
        (∀ j d, j < i → materias.get? j = some d → buscaPalavra d.1 texto = false) →
        extrairMateriaContexto ma texto = some e.2 ∧
          detectarMateria ma texto = some e.2) := by
  constructor
  · intro ma texto h
    have hb := buscaTabela_nenhuma texto materias h
    constructor
    · rw [extrairMateriaContexto, hb]
    · rw [detectarMateria, hb]
  · intro ma texto i e hg hhit hantes
    have hb := buscaTabela_primeira texto materias i e hg hhit hantes
    constructor
    · rw [extrairMateriaContexto, hb]
    · rw [detectarMateria, hb]

theorem materia_primeira_da_tabela_w :
    buscaPalavra ("FÍSICA".data) "Revisão de FÍSICA e QUÍMICA".data = true ∧
    buscaPalavra ("QUÍMICA".data) "Revisão de FÍSICA e QUÍMICA".data = true ∧
    extrairMateriaContexto (some "História") "Revisão de FÍSICA e QUÍMICA".data =
      some "Física" ∧
    detectarMateria (some "História") "Revisão de FÍSICA e QUÍMICA".data =
      some "Física" := by
  have hres := materia_primeira_da_tabela.2 (some "História")
    "Revisão de FÍSICA e QUÍMICA".data 3 ("FÍSICA".data, "Física") (by decide)
    (by decide)
    (fun j d hj hgd => by
      interval_cases j
      · have hd : ("PORTUGUÊS".data, "Português") = d := by
          simpa [materias] using hgd
        rw [← hd]; decide
      · have hd : ("LITERATURA".data, "Literatura") = d := by
          simpa [materias] using hgd
        rw [← hd]; decide
      · have hd : ("MATEMÁTICA".data, "Matemática") = d := by
          simpa [materias] using hgd
        rw [← hd]; decide)
  exact ⟨by decide, by decide, hres.1, hres.2⟩

theorem estruturarQuestao_invariante (idx : ImageIndex) (n : Nat) (t : List Char)
    (m : Option String) (p : Option Nat) (pr : Option Nat) :
    ((estruturarQuestao idx n t m p pr).temImagem = true ↔
      (estruturarQuestao idx n t m p pr).imagens ≠ []) := by
  simp [estruturarQuestao, List.length_pos]

theorem processarMatches_estruturadas (idx : ImageIndex) (ma : Option String)
    (texto : List Char) :
    ∀ (l : List (Nat × List Char × Nat)) (q : Questao),
      q ∈ processarMatches idx ma texto l →
      ∃ n t m p pr, q = estruturarQuestao idx n t m p pr := by
  intro l
  induction l with
  | nil => intro q hq; simp [processarMatches] at hq
  | cons cab resto ih =>
    intro q hq
    obtain ⟨n, corpo, i⟩ := cab
    simp only [processarMatches] at hq
    by_cases hcond : pyStrip corpo ≠ [] ∧ 5 < (pyStrip corpo).length
    · rw [if_pos hcond] at hq
      rcases List.mem_cons.mp hq with hq1 | hq2
      · exact ⟨n, pyStrip corpo, _, _, _, hq1⟩
      · exact ih q hq2
    · rw [if_neg hcond] at hq
      exact ih q hq
  
theorem filtrarOrdenar_subconjunto (qs : List Questao) (q : Questao)
    (h : q ∈ filtrarOrdenar qs) : q ∈ qs := by
  rw [filtrarOrdenar] at h
  have h2 := (List.perm_insertionSort ordNumero
    (qs.filter (fun q => !(pyStrip q.enunciado).isEmpty))).mem_iff.mp h
  exact List.mem_of_mem_filter h2

/-- C9: every record built by `_estruturar_questao` satisfies
`tem_imagem = (imagens is non-empty)`; the assembler only selects and reorders
records, so every record of the final collection of the text-processing core
satisfies the same invariant. -/
theorem invariante_tem_imagem :
    (∀ (idx : ImageIndex) (n : Nat) (t : List Char) (m : Option String)
        (p : Option Nat) (pr : Option Nat),
        ((estruturarQuestao idx n t m p pr).temImagem = true ↔
          (estruturarQuestao idx n t m p pr).imagens ≠ [])) ∧
    (∀ (qs : List Questao) (q : Questao), q ∈ filtrarOrdenar qs → q ∈ qs) ∧
    (∀ (idx : ImageIndex) (ma : Option String) (texto : List Char) (q : Questao),
        q ∈ extrairQuestoesDeTexto idx ma texto →
        (q.temImagem = true ↔ q.imagens ≠ [])) := by
  refine ⟨estruturarQuestao_invariante, filtrarOrdenar_subconjunto, ?_⟩
  intro idx ma texto q hq
  have h1 : q ∈ processarTextoCompleto idx ma texto :=
    filtrarOrdenar_subconjunto _ q hq
  obtain ⟨n, t, m, p, pr, hquest⟩ :=
    processarMatches_estruturadas idx ma texto (segmentarQuestoes texto) q h1
  rw [hquest]
  exact estruturarQuestao_invariante idx n t m p pr

/-- Concrete record produced by the pipeline on the witness text below. -/
def questaoFiguraExemplo : Questao :=
  { numero := 1, materia := none, instrucao := none,
    enunciado := "Observe a figura com atenção".data, alternativas := [],
    tipo := "multipla_escolha", temImagem := false, imagens := [], formulas := [] }

theorem invariante_tem_imagem_w :
    questaoFiguraExemplo ∈
      extrairQuestoesDeTexto [] none "\n1. Observe a figura com atenção".data ∧
    (questaoFiguraExemplo.temImagem = true ↔ questaoFiguraExemplo.imagens ≠ []) :=
  ⟨by decide,
    invariante_tem_imagem.2.2 [] none "\n1. Observe a figura com atenção".data
      questaoFiguraExemplo (by decide)⟩

theorem length_dropWhile_le (p : Char → Bool) (l : List Char) :
    (l.dropWhile p).length ≤ l.length := by
  induction l with
  | nil => simp
  | cons c t ih =>
    rw [List.dropWhile]
    cases p c with
    | true => simpa using Nat.le_trans ih (Nat.le_succ _)
    | false => simp

theorem length_takeWhile_le (p : Char → Bool) (l : List Char) :
    (l.takeWhile p).length ≤ l.length := by
  induction l with
  | nil => simp
  | cons c t ih =>
    rw [List.takeWhile]
    cases p c with
    | true => simpa using Nat.succ_le_succ ih
    | false => simp

theorem lazyCorpoQuestao_decomp :
    ∀ cs b r : List Char, lazyCorpoQuestao cs = some (b, r) → cs = b ++ r := by
  intro cs
  induction cs with
  | nil => intro b r h; simp [lazyCorpoQuestao] at h
  | cons c t ih =>
    intro b r h
    rw [lazyCorpoQuestao] at h
    by_cases hc : (lookProximaQuestao t || t.isEmpty) = true
    · rw [if_pos hc] at h
      cases h
      rfl
    · rw [if_neg hc] at h
      rcases Option.map_eq_some'.mp h with ⟨br, hbr, hval⟩
      cases hval
      have := ih br.1 br.2 hbr
      simp [this]

theorem corpoQuestao_resto_le (r3 b r : List Char)
    (h : corpoQuestao r3 = some (b, r)) : r.length ≤ r3.length := by
  simp only [corpoQuestao] at h
  split at h
  · exact absurd h (by simp)
  · split at h
    next br heq =>
      cases h
      have hdec := lazyCorpoQuestao_decomp _ _ _ heq
      have hlen : (r3.drop (r3.takeWhile isWs).length).length ≤ r3.length := by
        rw [List.length_drop]
        omega
      have : (r3.drop (r3.takeWhile isWs).length).length = b.length + r.length := by
        rw [hdec]
        simp
      omega
    next heq =>
      split at h
      · cases h
        simp
      · exact absurd h (by simp)

theorem questaoAposQuebra_propriedades (rest : List Char) (n : Nat) (b r : List Char)
    (h : questaoAposQuebra rest = some (n, b, r)) :
    n ≤ 999 ∧ r.length ≤ rest.length := by
  simp only [questaoAposQuebra] at h
  split at h
  next hds =>
    split at h
    next r3 heq =>
      rcases Option.map_eq_some'.mp h with ⟨br, hbr, hval⟩
      cases hval
      constructor
      · exact digitsVal_le_999 _ (fun c hc => List.mem_takeWhile_imp hc) hds.2
      · have h1 := corpoQuestao_resto_le r3 br.1 br.2 hbr
        have h2 : r3.length + 1 =
            (((rest.dropWhile isWs).drop
              ((rest.dropWhile isWs).takeWhile Char.isDigit).length).dropWhile isWs).length := by
          rw [heq]
          simp
        have h3 := length_dropWhile_le isWs
          ((rest.dropWhile isWs).drop
            ((rest.dropWhile isWs).takeWhile Char.isDigit).length)
        have h4 : ((rest.dropWhile isWs).drop
            ((rest.dropWhile isWs).takeWhile Char.isDigit).length).length ≤
            (rest.dropWhile isWs).length := by
          rw [List.length_drop]
          omega
        have h5 := length_dropWhile_le isWs rest
        omega
    next heq => exact absurd h (by simp)
  next => exact absurd h (by simp)

theorem matchQuestaoAt_propriedades (cs : List Char) (n : Nat) (b r : List Char)
    (h : matchQuestaoAt cs = some (n, b, r)) :
    n ≤ 999 ∧ r.length < cs.length := by
  cases cs with
  | nil => simp [matchQuestaoAt] at h
  | cons c t =>
    rw [matchQuestaoAt] at h
    by_cases hc : c = '\n'
    · rw [if_pos hc] at h
      have := questaoAposQuebra_propriedades t n b r h
      constructor
      · exact this.1
      · simp
        omega
    · rw [if_neg hc] at h
      exact absurd h (by simp)

theorem scanQuestoesF_sem_quebra :
    ∀ (fuel : Nat) (cs : List Char) (pos : Nat), '\n' ∉ cs →
      scanQuestoesF fuel cs pos = [] := by
  intro fuel
  induction fuel with
  | zero => intro cs pos _; rfl
  | succ f ih =>
    intro cs pos h
    cases cs with
    | nil => rfl
    | cons c t =>
      have hc : c ≠ '\n' := fun he => h (by simp [he])
      rw [scanQuestoesF, matchQuestaoAt, if_neg hc]
      exact ih t (pos + 1) (fun hm => h (by simp [hm]))

theorem scanQuestoesF_numeros :
    ∀ (fuel : Nat) (cs : List Char) (pos : Nat) (m : Nat × List Char × Nat),
      m ∈ scanQuestoesF fuel cs pos → m.1 ≤ 999 := by
  intro fuel
  induction fuel with
  | zero => intro cs pos m hm; simp [scanQuestoesF] at hm
  | succ f ih =>
    intro cs pos m hm
    cases cs with
    | nil => simp [scanQuestoesF] at hm
    | cons c t =>
      rw [scanQuestoesF] at hm
      cases hmt : matchQuestaoAt (c :: t) with
      | none =>
        rw [hmt] at hm
        exact ih t (pos + 1) m hm
      | some x =>
        obtain ⟨n2, b2, r2⟩ := x
        rw [hmt] at hm
        rcases List.mem_cons.mp hm with h1 | h2
        · subst h1
          exact (matchQuestaoAt_propriedades _ _ _ _ hmt).1
        · exact ih _ _ m h2

theorem scanQuestoesF_posicoes :
    ∀ (fuel : Nat) (cs : List Char) (pos : Nat),
      (∀ m ∈ scanQuestoesF fuel cs pos, pos ≤ m.2.2) ∧
      ((scanQuestoesF fuel cs pos).map (fun m => m.2.2)).Pairwise (· < ·) := by
  intro fuel
  induction fuel with
  | zero => intro cs pos; simp [scanQuestoesF]
  | succ f ih =>
    intro cs pos
    cases cs with
    | nil => simp [scanQuestoesF]
    | cons c t =>
      rw [scanQuestoesF]
      cases hmt : matchQuestaoAt (c :: t) with
      | none =>
        have := ih t (pos + 1)
        exact ⟨fun m hm => Nat.le_trans (Nat.le_succ pos) (this.1 m hm), this.2⟩
      | some x =>
        obtain ⟨n2, b2, r2⟩ := x
        have hlt : r2.length < (c :: t).length :=
          (matchQuestaoAt_propriedades _ _ _ _ hmt).2
        have hpos : pos < pos + ((c :: t).length - r2.length) := by omega
        have := ih r2 (pos + ((c :: t).length - r2.length))
        constructor
        · intro m hm
          rcases List.mem_cons.mp hm with h1 | h2
          · subst h1; exact Nat.le_refl _
          · exact Nat.le_trans (Nat.le_of_lt hpos) (this.1 m h2)
        · rw [List.map_cons, List.pairwise_cons]
          constructor
          · intro y hy
            rcases List.mem_map.mp hy with ⟨m, hm, hval⟩
            subst hval
            exact Nat.lt_of_lt_of_le hpos (this.1 m hm)
          · exact this.2

/-- C1: the segmenter returns the non-overlapping matches of the
newline-anchored question pattern in document order.  The concrete two-question
input splits exactly at the second numbered line (question 1 never absorbs the
`2. Beta` text); the embedded `Figure 12.` fragment, not preceded by a line
break, opens no boundary; a text with no newline at all yields no match, since
every match consumes a leading newline; every reported number comes from a run
of one to three digits, so it is at most 999; and match start positions are
strictly increasing (document order, no overlap). -/
theorem segmentacao_com_lookahead :
    (segmentarQuestoes "\n1. Alpha text (A) x (B) y\n2. Beta text (A) z".data).map
        (fun m => (m.1, m.2.1)) =
      [(1, "Alpha text (A) x (B) y".data), (2, "Beta text (A) z".data)] ∧
    (segmentarQuestoes "\n3. Consider Figure 12. see below and answer".data).map
        (fun m => (m.1, m.2.1)) =
      [(3, "Consider Figure 12. see below and answer".data)] ∧
    (∀ texto : List Char, '\n' ∉ texto → segmentarQuestoes texto = []) ∧
    (∀ (texto : List Char) (m : Nat × List Char × Nat),
        m ∈ segmentarQuestoes texto → m.1 ≤ 999) ∧
    (∀ texto : List Char,
        ((segmentarQuestoes texto).map (fun m => m.2.2)).Pairwise (· < ·)) := by
  refine ⟨by decide, by decide, ?_, ?_, ?_⟩
  · intro texto h
    exact scanQuestoesF_sem_quebra texto.length texto 0 h
  · intro texto m hm
    exact scanQuestoesF_numeros texto.length texto 0 m hm
  · intro texto
    exact (scanQuestoesF_posicoes texto.length texto 0).2

theorem segmentacao_com_lookahead_w :
    ('\n' ∉ "Figure 12. see below sem quebra de linha".data) ∧
    segmentarQuestoes "Figure 12. see below sem quebra de linha".data = [] :=
  ⟨by decide,
    segmentacao_com_lookahead.2.2.1 "Figure 12. see below sem quebra de linha".data
      (by decide)⟩
